import Mathlib

/-!
Verification development for the gconv struct-binding core of this repository:
the struct-metadata cache (`gconv_struct_cache.go`), the non-cached conversion
path (`gconv_struct.go`) and the `structcache` helper package.

Go values, struct types and the relevant library functions are shallowly
embedded as Lean definitions translated from the source; external helpers that
are not part of the shipped sources (`utils.RemoveSymbols`,
`utils.SplitAndTrim`, `utils.IsLetterUpper`, `gtag.StructTagPriority`, the
cache-based assignment loop) are modelled from the specification and marked as
such in their doc comments.
-/

namespace GConv

/-- ASCII whitespace predicate used by `strings.TrimSpace` (embedding of the Go
standard library behaviour, restricted to the ASCII space characters that can
occur in struct tags). -/
def goIsSpace (c : Char) : Bool :=
  c == ' ' || c == '\t' || c == '\n' || c == '\x0b' || c == '\x0c' || c == '\r'

/-- Embedding of `strings.TrimSpace`: drop whitespace from both ends. -/
def goTrimSpace (s : String) : String :=
  String.mk (((s.data.dropWhile goIsSpace).reverse.dropWhile goIsSpace).reverse)

/-- First component of `strings.Split(s, ",")`: the prefix of `s` before the
first comma (the whole string when no comma occurs); `strings.Split` never
returns an empty slice, so indexing `[0]` is total. -/
def goSplitFirst (s : String) : String :=
  String.mk (s.data.takeWhile (fun c => c ≠ ','))

/-- Embedding of `strings.EqualFold` restricted to ASCII case folding, which is
all the matching algorithm relies on for field names and map keys. -/
def equalFold (a b : String) : Bool :=
  a.data.map Char.toLower == b.data.map Char.toLower

/-- Modelled from the spec: `utils.RemoveSymbols` (not in src) strips separator
symbols from a string, keeping only letters and digits, for fuzzy matching. -/
def removeSymbols (s : String) : String :=
  String.mk (s.data.filter (fun c => c.isAlpha || c.isDigit))

/-- Modelled from the spec: `utils.IsLetterUpper` (not in src) decides whether
a field is publicly accessible, i.e. its first character is an upper-case
letter. -/
def goIsLetterUpperFirst (s : String) : Bool :=
  match s.data with
  | c :: _ => 'A' ≤ c && c ≤ 'Z'
  | [] => false

/-- Comma-split of a character list: the segments between commas, never empty
as a list of segments. -/
def splitCommaList : List Char → List (List Char)
  | [] => [[]]
  | c :: rest =>
    let r := splitCommaList rest
    if c = ',' then [] :: r
    else
      match r with
      | h :: t => (c :: h) :: t
      | [] => [[c]]

/-- Modelled from the spec: `utils.SplitAndTrim` (not in src) splits a string
by the separator — always `","` at its use sites here — trims each item and
drops the empty ones. -/
def splitAndTrim (s : String) : List String :=
  ((splitCommaList s.data).map (fun cs => goTrimSpace (String.mk cs))).filter
    (fun x => x ≠ "")

/-- Modelled from the spec: `gtag.StructTagPriority` (external gtag package,
not in src), the default ordered tag list consulted after any caller-supplied
priority tags. -/
def structTagPriority : List String :=
  ["gconv", "param", "p", "c", "json"]

/-- A Go interface value as far as the matching algorithm observes it: `nil`
or some concrete payload. The binder only ever compares such values against
`nil` and passes them through, so the payload is kept abstract as a string or
an integer. -/
inductive GoAny where
  | nil : GoAny
  | str : String → GoAny
  | int : Int → GoAny
  deriving DecidableEq

/-- Error codes used by the embedded error values (`gcode` package). -/
inductive GCode where
  | invalidParameter : GCode
  | internalPanic : GCode
  | other : GCode
  deriving DecidableEq

/-- A structured `gerror` value: an error code, a message, and the name of the
offending field when the error was produced by wrapping at a field boundary. -/
structure GErr where
  code : GCode
  msg : String
  fieldName : Option String
  deriving DecidableEq

/-- Embedding of `reflect.StructTag.Lookup`: a struct tag is a finite list of
`key:"value"` pairs; `Lookup` returns the first value for the key. -/
def tagLookup (tags : List (String × String)) (key : String) : Option String :=
  (tags.find? (fun p => p.1 == key)).map (·.2)

mutual
/-- A Go type as the flattener observes it: a non-struct (named) type, a
pointer type, or a struct type given by its declared field list. -/
inductive GoType where
  | prim : String → GoType
  | ptr : GoType → GoType
  | structT : GoFields → GoType

/-- The declared field list of a struct type. -/
inductive GoFields where
  | nil : GoFields
  | cons : GoField → GoFields → GoFields

/-- One declared struct field: name, struct tag, anonymous (embedded) flag and
type. -/
inductive GoField where
  | mk : String → List (String × String) → Bool → GoType → GoField
end

/-- Declared name of a field (`reflect.StructField.Name`). -/
def GoField.name : GoField → String
  | .mk n _ _ _ => n

/-- Struct tag of a field (`reflect.StructField.Tag`). -/
def GoField.tags : GoField → List (String × String)
  | .mk _ t _ _ => t

/-- Whether the field is an anonymous (embedded) member
(`reflect.StructField.Anonymous`). -/
def GoField.anonymous : GoField → Bool
  | .mk _ _ a _ => a

/-- Type of the field (`reflect.StructField.Type`). -/
def GoField.type : GoField → GoType
  | .mk _ _ _ ty => ty

/-- One level of pointer unwrapping, as done by `parseStruct` on anonymous
members (`if fieldType.Kind() == reflect.Ptr { fieldType = fieldType.Elem() }`). -/
def unwrapPtr : GoType → GoType
  | .ptr t => t
  | t => t

/-- Whether a type is a struct type (`Kind() == reflect.Struct`). -/
def isStructType : GoType → Bool
  | .structT _ => true
  | _ => false

/-- Embedding of `genPriorityTagAndFieldName` (`gconv_struct_cache.go`):
scan the priority tags in order; the first present tag whose first
comma-segment trims to a non-empty string contributes one entry, then the
declared field name is always appended last. -/
def genPriorityTagAndFieldName (field : GoField) : List String → List String
  | [] => [field.name]
  | tag :: rest =>
    match tagLookup field.tags tag with
    | some value =>
      let trimmedTagName := goTrimSpace (goSplitFirst value)
      if trimmedTagName ≠ "" then [trimmedTagName, field.name]
      else genPriorityTagAndFieldName field rest
    | none => genPriorityTagAndFieldName field rest

/-- The tag-derived key produced by the `genPriorityTagAndFieldName` loop, as
a stand-alone function: the first present tag whose trimmed first
comma-segment is non-empty. -/
def firstTagKey (field : GoField) : List String → Option String
  | [] => none
  | tag :: rest =>
    match tagLookup field.tags tag with
    | some value =>
      let trimmedTagName := goTrimSpace (goSplitFirst value)
      if trimmedTagName ≠ "" then some trimmedTagName
      else firstTagKey field rest
    | none => firstTagKey field rest

/-- Embedding of the `getTag` closure in `doStruct` (`gconv_struct.go`
lines 192-208): return the trimmed first comma-segment of the first present
tag — even when that segment is empty — and `""` when no tag is present. -/
def getTag (field : GoField) : List String → String
  | [] => ""
  | tag :: rest =>
    match tagLookup field.tags tag with
    | some value => goTrimSpace (goSplitFirst value)
    | none => getTag field rest

/-- The effective match key of a non-anonymous field on the non-cached
`doStruct` path (`gconv_struct.go` lines 258-261): the `getTag` result, or the
declared field name when `getTag` returned `""`. -/
def doStructFieldTag (field : GoField) (priorityTags : List String) : String :=
  let fieldTag := getTag field priorityTags
  if fieldTag = "" then field.name else fieldTag

/-- The value of the first tag of the priority list that is present on the
field at all (before any emptiness filtering), used to state when the two tag
resolution paths agree. -/
def firstPresentTagValue (field : GoField) : List String → Option String
  | [] => none
  | tag :: rest =>
    match tagLookup field.tags tag with
    | some value => some value
    | none => firstPresentTagValue field rest

mutual
/-- Structural equality on `GoType`, standing in for `reflect.Type` identity
(two identical type literals denote the same Go type). -/
def GoType.beq : GoType → GoType → Bool
  | .prim a, .prim b => a == b
  | .ptr a, .ptr b => GoType.beq a b
  | .structT a, .structT b => GoFields.beq a b
  | _, _ => false

/-- Structural equality on field lists. -/
def GoFields.beq : GoFields → GoFields → Bool
  | .nil, .nil => true
  | .cons f fs, .cons g gs => GoField.beq f g && GoFields.beq fs gs
  | _, _ => false

/-- Structural equality on fields. -/
def GoField.beq : GoField → GoField → Bool
  | .mk n t a ty, .mk n' t' a' ty' => n == n' && t == t' && a == a' && GoType.beq ty ty'
end

/-- One primary field descriptor of the cached metadata: the shared
`cachedFieldInfoBase` of `gconv_struct_cache.go` (index path, ordered match
keys, declared name, its symbol-stripped form used for fuzzy matching, and the
index paths of later same-named fields). The converter closure and interface
capability flags are determined by the field type alone and are not needed by
any claim, so they are not carried. -/
structure FieldDescrBase where
  fieldIndexes : List Nat
  priorityTagAndFieldName : List String
  fieldName : String
  removeSymbolsFieldName : String
  otherSameNameFieldIndex : List (List Nat)
  deriving DecidableEq

/-- The cached metadata of one struct type (`cachedStructInfo`): the backing
store of shared descriptor bases (identified by position), the
tag-or-field-name map (newest entry first, so `lookupKey` sees the latest
insertion exactly like a Go map overwrite), and the ids appended to
`fieldConvertInfos`. -/
structure CachedStructInfo where
  bases : List FieldDescrBase
  keyMap : List (String × Nat × Bool)
  fieldConvertInfos : List Nat
  deriving DecidableEq

/-- The freshly initialised `cachedStructInfo` of `getCachedStructInfo`. -/
def emptyStructInfo : CachedStructInfo :=
  { bases := [], keyMap := [], fieldConvertInfos := [] }

/-- Go map read `csi.tagOrFiledNameToFieldInfoMap[k]`: the most recent binding
of the key, as a descriptor id together with its `isField` flag. -/
def lookupKey (km : List (String × Nat × Bool)) (k : String) : Option (Nat × Bool) :=
  (km.find? (fun e => e.1 == k)).map (·.2)

/-- The shared descriptor base behind id `i`. -/
def CachedStructInfo.getBase (csi : CachedStructInfo) (i : Nat) : Option FieldDescrBase :=
  csi.bases.get? i

/-- Update the descriptor base at position `i` in place (mutation of the
shared `cachedFieldInfoBase` through the map entry's pointer). -/
def updateBaseAt (l : List FieldDescrBase) (i : Nat) (f : FieldDescrBase → FieldDescrBase) :
    List FieldDescrBase :=
  match l.get? i with
  | some b => l.set i (f b)
  | none => l

/-- Embedding of `cachedStructInfo.AddField` (`gconv_struct_cache.go` lines
154-188): when the declared field name is already bound in the map, only the
new index path is appended to the shared base's `otherSameNameFieldIndex`;
otherwise one shared base is created and registered under every entry of
`genPriorityTagAndFieldName`, with `isField` marking the declared-name entry,
which is also appended to `fieldConvertInfos`. -/
def CachedStructInfo.AddField (csi : CachedStructInfo) (field : GoField)
    (fieldIndexes : List Nat) (priorityTags : List String) : CachedStructInfo :=
  match lookupKey csi.keyMap field.name with
  | some (id, _) =>
    { csi with
      bases := updateBaseAt csi.bases id (fun b =>
        { b with otherSameNameFieldIndex := b.otherSameNameFieldIndex ++ [fieldIndexes] }) }
  | none =>
    let ptfn := genPriorityTagAndFieldName field priorityTags
    let id := csi.bases.length
    let base : FieldDescrBase :=
      { fieldIndexes := fieldIndexes
        priorityTagAndFieldName := ptfn
        fieldName := field.name
        removeSymbolsFieldName := removeSymbols field.name
        otherSameNameFieldIndex := [] }
    let st := ptfn.foldl
      (fun (acc : List (String × Nat × Bool) × List Nat) k =>
        ((k, id, k == field.name) :: acc.1,
         if k == field.name then acc.2 ++ [id] else acc.2))
      (csi.keyMap, csi.fieldConvertInfos)
    { bases := csi.bases ++ [base], keyMap := st.1, fieldConvertInfos := st.2 }

/-- The field loop of `parseStruct` (`gconv_struct_cache.go` lines 322-365),
with `i` the current field index: every public field — anonymous or not — is
passed to `AddField` with the extended index path, and anonymous members
whose type is a struct (after one level of pointer unwrapping, matched here as
the nested patterns `.structT` and `.ptr (.structT ..)`) are additionally
recursed into with the extended index path. -/
def parseStructFields : GoFields → Nat → List Nat → CachedStructInfo → List String →
    CachedStructInfo
  | .nil, _, _, structInfo, _ => structInfo
  | .cons (.mk n tags anon ty) rest, i, fieldIndexes, structInfo, priorityTagArray =>
    let afterField :=
      if goIsLetterUpperFirst n then
        let added := CachedStructInfo.AddField structInfo (.mk n tags anon ty)
          (fieldIndexes ++ [i]) priorityTagArray
        if anon then
          match ty with
          | .structT innerFs =>
            parseStructFields innerFs 0 (fieldIndexes ++ [i]) added priorityTagArray
          | .ptr (.structT innerFs) =>
            parseStructFields innerFs 0 (fieldIndexes ++ [i]) added priorityTagArray
          | _ => added
        else added
      else structInfo
    parseStructFields rest (i + 1) fieldIndexes afterField priorityTagArray

/-- Embedding of `parseStruct` on a whole type: iterate the declared fields of
a struct type; non-struct types have no fields to walk. -/
def parseStruct (structType : GoType) (fieldIndexes : List Nat)
    (structInfo : CachedStructInfo) (priorityTagArray : List String) : CachedStructInfo :=
  match structType with
  | .structT fs => parseStructFields fs 0 fieldIndexes structInfo priorityTagArray
  | _ => structInfo

/-- Embedding of the priority tag array construction shared by `doStruct`
(lines 186-190) and `getCachedStructInfo` (lines 312-316): caller-supplied
tags first, then the defaults. -/
def mkPriorityTagArray (priorityTag : String) : List String :=
  if priorityTag ≠ "" then splitAndTrim priorityTag ++ structTagPriority
  else structTagPriority

/-- A fresh metadata build for a given (type, priority tag) pair, exactly as
the cache-miss branch of `getCachedStructInfo` performs it. -/
def buildStructInfo (structType : GoType) (priorityTag : String) : CachedStructInfo :=
  parseStruct structType [] emptyStructInfo (mkPriorityTagArray priorityTag)

/-- The process-wide metadata store `cachedStructsInfoMap`, keyed by type
identity only. -/
abbrev StructCache := List (GoType × CachedStructInfo)

/-- Embedding of `getCachedConvertStructInfo`: look a type up in the store. -/
def cacheLookup (cache : StructCache) (t : GoType) : Option CachedStructInfo :=
  (cache.find? (fun p => GoType.beq p.1 t)).map (·.2)

/-- Embedding of `getCachedStructInfo` (`gconv_struct_cache.go` lines
296-320): non-struct types yield nil; a cached entry is returned as-is
(whatever priority tag list the current request carries); on a miss the
metadata is built for the requested priority tag list and stored under the
type alone. Returns the result together with the updated store. -/
def getCachedStructInfo (cache : StructCache) (structType : GoType)
    (priorityTag : String) : Option CachedStructInfo × StructCache :=
  if isStructType structType then
    match cacheLookup cache structType with
    | some info => (some info, cache)
    | none =>
      let info := buildStructInfo structType priorityTag
      (some info, (structType, info) :: cache)
  else (none, cache)

/-- The recursion of `fuzzyMatchingFieldName` over the parameter map entries,
with `fieldName` already symbol-stripped: skip consumed keys, return the first
remaining entry whose symbol-stripped key compares case-insensitively equal,
and `("", nil)` when none does. -/
def fuzzyGo (strippedFieldName : String) (used : List String) :
    List (String × GoAny) → String × GoAny
  | [] => ("", .nil)
  | (paramKey, paramVal) :: rest =>
    if used.contains paramKey then fuzzyGo strippedFieldName used rest
    else if equalFold strippedFieldName (removeSymbols paramKey) then (paramKey, paramVal)
    else fuzzyGo strippedFieldName used rest

/-- Embedding of `fuzzyMatchingFieldName` (`gconv_struct.go` lines 325-337).
The Go loop ranges over an unordered map; the embedded map is a list whose
order stands for one concrete iteration order. -/
def fuzzyMatchingFieldName (fieldName : String) (paramsMap : List (String × GoAny))
    (usedParamsKey : List String) : String × GoAny :=
  fuzzyGo (removeSymbols fieldName) usedParamsKey paramsMap

/-- One entry of `fieldInfoMap` in `doStruct` (lines 169-184): the declared
field name, the resolved `tag` match key, the field index, and the resolved
value (`nil` until a lookup succeeds, exactly as the Go zero value). -/
structure FieldInfo where
  name : String
  tag : String
  index : Nat
  val : GoAny
  deriving DecidableEq

/-- The first resolution pass of `doStruct` (lines 273-279): each field whose
`tag` key occurs in the parameter map receives that value. -/
def initFieldVals (fields : List (String × String × Nat))
    (paramsMap : List (String × GoAny)) : List FieldInfo :=
  fields.map (fun f =>
    { name := f.1, tag := f.2.1, index := f.2.2,
      val := ((paramsMap.find? (fun p => p.1 == f.2.1)).map (·.2)).getD .nil })

/-- The explicit-override pass of `doStruct` (lines 282-293): for each
`paramKey → fieldName` rule whose field exists and whose parameter key is
present, overwrite that field's resolved value. -/
def applyOverrides (fields : List FieldInfo) (paramsMap : List (String × GoAny))
    (paramKeyToAttrMap : List (String × String)) : List FieldInfo :=
  paramKeyToAttrMap.foldl
    (fun fs rule =>
      if fs.any (fun e => e.name == rule.2) then
        match (paramsMap.find? (fun p => p.1 == rule.1)).map (·.2) with
        | some v => fs.map (fun e => if e.name == rule.2 then { e with val := v } else e)
        | none => fs
      else fs)
    fields

/-- How a field obtained its value in the main loop of `doStruct`. -/
inductive MatchKind where
  | exact : MatchKind
  | fuzzy : MatchKind
  deriving DecidableEq

/-- One successful binding performed by the main loop: the field name, the
source key recorded as consumed for it, the bound value and the match kind. -/
structure BindEntry where
  fieldName : String
  key : String
  value : GoAny
  kind : MatchKind
  deriving DecidableEq

/-- Embedding of the main loop of `doStruct` (lines 296-321): fields are
visited in the given order (one concrete iteration order of the unordered Go
map); a field with a non-nil resolved value is bound and its `tag` key is
marked consumed; otherwise a fuzzy match over the not-yet-consumed parameter
keys is attempted and the matched key is marked consumed. Assignment errors
abort the call and are immaterial to match bookkeeping, so the loop returns
the performed bindings. -/
def bindLoop (paramsMap : List (String × GoAny)) :
    List FieldInfo → List String → List BindEntry
  | [], _ => []
  | f :: rest, usedParamsKey =>
    if f.val ≠ .nil then
      { fieldName := f.name, key := f.tag, value := f.val, kind := .exact } ::
        bindLoop paramsMap rest (f.tag :: usedParamsKey)
    else
      if (fuzzyMatchingFieldName f.name paramsMap usedParamsKey).2 ≠ .nil then
        { fieldName := f.name,
          key := (fuzzyMatchingFieldName f.name paramsMap usedParamsKey).1,
          value := (fuzzyMatchingFieldName f.name paramsMap usedParamsKey).2,
          kind := .fuzzy } ::
          bindLoop paramsMap rest
            ((fuzzyMatchingFieldName f.name paramsMap usedParamsKey).1 :: usedParamsKey)
      else bindLoop paramsMap rest usedParamsKey

/-- The whole matching phase of one `doStruct` call on an already normalised
parameter map: resolve exact/tag values, apply overrides, then run the main
loop with a fresh (call-local) consumed-keys set. -/
def doStructBind (fields : List (String × String × Nat))
    (paramsMap : List (String × GoAny))
    (paramKeyToAttrMap : List (String × String)) : List BindEntry :=
  bindLoop paramsMap (applyOverrides (initFieldVals fields paramsMap) paramsMap paramKeyToAttrMap) []

/-- Decides whether some parameter key satisfied a fuzzy match for one field
and any match for a different field in the same call — the situation claim C3
rules out. -/
def hasSharedFuzzyKey (trace : List BindEntry) : Bool :=
  (List.range trace.length).any (fun j =>
    (List.range trace.length).any (fun i =>
      decide (i ≠ j) &&
      match trace.get? i, trace.get? j with
      | some a, some b => a.key == b.key && b.kind == .fuzzy
      | _, _ => false))

/-- Outcome of a piece of Go code that may panic instead of returning. -/
inductive PanicOr (α : Type) where
  | ok : α → PanicOr α
  | panicked : String → PanicOr α
  deriving DecidableEq

/-- Embedding of the auto-vivification block of `doStruct` (`gconv_struct.go`
lines 129-151) together with the call-level recover (lines 66-75): when the
pointed-to element is a nil pointer to struct, a fresh zero value is
allocated and a deferred reset of the pointer is registered. Deferred
functions run in reverse registration order, so on the normal return path the
reset defer observes the named `err` already assigned and resets the pointer
to nil on error; during a panic, however, the reset defer runs first — while
`err` is still nil, so no reset happens — and only afterwards does the
earlier-registered recover defer assign the panic-derived error. A non-nil
pointer is used as-is and never reset. `rest` is the remainder of the call on
the pointed-to struct value: its outcome (success, error return, or panic)
together with the possibly partially written value. -/
def doStructPtrElem {α : Type} : Option α → α → (α → PanicOr (Option GErr) × α) →
    Option GErr × Option α
  | some s, _, rest =>
    match (rest s).1 with
    | .ok e => (e, some (rest s).2)
    | .panicked p =>
      (some { code := .internalPanic, msg := p, fieldName := none }, some (rest s).2)
  | none, zeroVal, rest =>
    match (rest zeroVal).1 with
    | .ok none => (none, some (rest zeroVal).2)
    | .ok (some err) => (some err, none)
    | .panicked p =>
      (some { code := .internalPanic, msg := p, fieldName := none },
       some (rest zeroVal).2)

/-- `recover()` inside a deferred function: a panic transfers control to the
handler, a normal result passes through. -/
def goRecover {α : Type} (body : PanicOr α) (handler : String → PanicOr α) : PanicOr α :=
  match body with
  | .ok a => .ok a
  | .panicked p => handler p

/-- `gerror.Wrapf(err, "error binding value to attribute ...", attrName)`: the
structured error produced at the per-field boundary, carrying the field name. -/
def wrapFieldErr (e : GErr) (attrName : String) : GErr :=
  { code := e.code, msg := "error binding value to attribute: " ++ e.msg,
    fieldName := some attrName }

/-- Embedding of `bindVarToStructAttrWithFieldIndex` (`gconv_struct.go` lines
340-412) at the level claim C9 is about: the direct reflective conversion may
panic; the deferred `recover` then runs the fallback `bindVarToReflectValue`,
whose error — if any — is wrapped with the field name. The fallback itself may
panic while the deferred function runs, in which case that panic propagates
out of the per-field boundary. -/
def bindVarToStructAttrWithFieldIndex (attrName : String) (direct : PanicOr Unit)
    (fallback : PanicOr (Option GErr)) : PanicOr (Option GErr) :=
  goRecover
    (match direct with
     | .ok _ => .ok none
     | .panicked p => .panicked p)
    (fun _ =>
      match fallback with
      | .ok none => .ok none
      | .ok (some e) => .ok (some (wrapFieldErr e attrName))
      | .panicked p => .panicked p)

/-- The enclosing `doStruct` recover (`gconv_struct.go` lines 66-75): any
panic that reaches the call boundary is converted into an internal-panic
error. -/
def doStructRecoverBoundary (r : PanicOr (Option GErr)) : Option GErr :=
  match r with
  | .ok e => e
  | .panicked p => some { code := .internalPanic, msg := p, fieldName := none }

/-- One per-field assignment as observed through the `Convert` entry point:
the per-field binding guarded by the call-level recover. -/
def convertFieldBind (attrName : String) (direct : PanicOr Unit)
    (fallback : PanicOr (Option GErr)) : Option GErr :=
  doStructRecoverBoundary (bindVarToStructAttrWithFieldIndex attrName direct fallback)

/-- Embedding of the entry checks of `doStruct` (`gconv_struct.go` lines
46-55): a nil source returns success without touching the destination; a nil
destination pointer (with a non-nil source) is an invalid-parameter error.
`rest` is the remainder of the call on the two non-nil values. -/
def doStructEntry (params : Option GoAny) (pointer : Option GoAny)
    (rest : GoAny → GoAny → Option GErr × Option GoAny) : Option GErr × Option GoAny :=
  match params with
  | none => (none, pointer)
  | some p =>
    match pointer with
    | none =>
      (some { code := .invalidParameter, msg := "object pointer cannot be nil",
              fieldName := none }, none)
    | some d => rest p d

/-- A destination struct viewed as a mapping from field index paths to the
values written there. -/
def PathStore : Type := List Nat → Option GoAny

/-- Write one value at one index path. -/
def writePath (s : PathStore) (path : List Nat) (v : GoAny) : PathStore :=
  fun q => if q = path then some v else s q

/-- Modelled from the spec: the cache-based binder's assignment step (the
`bindStructWithLoopParamsMap` loop, whose code is not in src) writes the one
converted value to the descriptor's primary index path and then to every
entry of its duplicate index-path list, via `GetFieldReflectValue` and
`GetOtherFieldReflectValue`. -/
def assignAllPaths (b : FieldDescrBase) (v : GoAny) (s : PathStore) : PathStore :=
  b.otherSameNameFieldIndex.foldl (fun st p => writePath st p v)
    (writePath s b.fieldIndexes v)

/-! ### Example types used by concrete counterexamples and witnesses -/

/-- Embedded struct type `Name { LastName, FirstName string }`. -/
def exInnerNameType : GoType :=
  .structT (.cons (.mk "LastName" [] false (.prim "string"))
    (.cons (.mk "FirstName" [] false (.prim "string")) .nil))

/-- The untagged anonymous member `Name` embedded in the example user type. -/
def exAnonField : GoField := .mk "Name" [] true exInnerNameType

/-- Destination type `User { Name }` with an untagged anonymous member. -/
def exUserType : GoType := .structT (.cons exAnonField .nil)

/-- A struct type with one field tagged both `a:"x"` and `b:"y"`. -/
def exTaggedType : GoType :=
  .structT (.cons (.mk "F" [("a", "x"), ("b", "y")] false (.prim "string")) .nil)

/-- A field whose highest-priority tag is present but empty: `a:"" b:"y"`. -/
def exEmptyTagField : GoField := .mk "F" [("a", ""), ("b", "y")] false (.prim "string")

/-- A field with one plain tag `a:"x"`. -/
def exPlainTagField : GoField := .mk "F" [("a", "x")] false (.prim "string")

/-! ### Helper lemmas -/

/-- Characterization of `genPriorityTagAndFieldName` through `firstTagKey`:
the produced list is the declared name, preceded by the first present tag
whose trimmed first comma-segment is non-empty, when there is one. -/
theorem genPriorityTag_eq (field : GoField) (priorityTags : List String) :
    genPriorityTagAndFieldName field priorityTags =
      (match firstTagKey field priorityTags with
       | none => [field.name]
       | some t => [t, field.name]) := by
  induction priorityTags with
  | nil => simp [genPriorityTagAndFieldName, firstTagKey]
  | cons tag rest ih =>
    simp only [genPriorityTagAndFieldName, firstTagKey]
    cases tagLookup field.tags tag with
    | none => simpa using ih
    | some value =>
      by_cases h : goTrimSpace (goSplitFirst value) = "" <;> simp [h, ih]

/-! ### Claim C5 -/

/-- Claim C5 is false as stated: on the field `F` with tags `a:"" b:"y"` and
priority list `["a","b"]`, the non-cached path (`getTag` plus the
field-name fallback of `doStruct`) stops at the present-but-empty tag `a` and
yields the declared name `F`, while the cache path
(`genPriorityTagAndFieldName`) skips the empty tag and yields primary key
`"y"` from tag `b`. -/
theorem gconv_c5_counterexample :
    doStructFieldTag exEmptyTagField ["a", "b"] = "F" ∧
    (genPriorityTagAndFieldName exEmptyTagField ["a", "b"]).headD "" = "y" ∧
    doStructFieldTag exEmptyTagField ["a", "b"] ≠
      (genPriorityTagAndFieldName exEmptyTagField ["a", "b"]).headD "" := by
  refine ⟨by decide, by decide, by decide⟩

/-- Claim C5, amended: the two tag-resolution implementations produce the same
primary match key whenever the first present tag of the priority list (if
any) has a non-empty trimmed first comma-segment; when the first present
tag's value trims to empty, `getTag` stops there and falls back to the
declared field name while `genPriorityTagAndFieldName` keeps scanning later
tags, and the two may differ. -/
theorem gconv_c5_amended (field : GoField) (priorityTags : List String)
    (h : ∀ v, firstPresentTagValue field priorityTags = some v →
      goTrimSpace (goSplitFirst v) ≠ "") :
    doStructFieldTag field priorityTags =
      (genPriorityTagAndFieldName field priorityTags).headD "" := by
  induction priorityTags with
  | nil => simp [doStructFieldTag, getTag, genPriorityTagAndFieldName]
  | cons tag rest ih =>
    simp only [doStructFieldTag, getTag, genPriorityTagAndFieldName]
    cases hl : tagLookup field.tags tag with
    | none =>
      have h' : ∀ v, firstPresentTagValue field rest = some v →
          goTrimSpace (goSplitFirst v) ≠ "" := by
        intro v hv
        exact h v (by simp [firstPresentTagValue, hl, hv])
      simpa [doStructFieldTag, getTag, genPriorityTagAndFieldName] using ih h'
    | some value =>
      have hne : goTrimSpace (goSplitFirst value) ≠ "" :=
        h value (by simp [firstPresentTagValue, hl])
      simp [hne]

/-- Witness for the amended claim C5 at the field `F` tagged `a:"x"` with
priority list `["a"]`. -/
theorem gconv_c5_amended_witness :
    doStructFieldTag exPlainTagField ["a"] =
      (genPriorityTagAndFieldName exPlainTagField ["a"]).headD "" := by
  apply gconv_c5_amended
  intro v hv
  have hx : v = "x" := by
    have : firstPresentTagValue exPlainTagField ["a"] = some "x" := by decide
    rw [this] at hv
    exact (Option.some_inj.mp hv).symm
  subst hx
  decide

/-! ### The sequence of AddField invocations performed by parseStruct -/

/-- The `(field, index path)` arguments `parseStructFields` hands to
`AddField`, in invocation order. -/
def addFieldArgsFields : GoFields → Nat → List Nat → List (GoField × List Nat)
  | .nil, _, _ => []
  | .cons (.mk n tags anon ty) rest, i, fieldIndexes =>
    (if goIsLetterUpperFirst n then
      (GoField.mk n tags anon ty, fieldIndexes ++ [i]) ::
        (if anon then
          match ty with
          | .structT innerFs => addFieldArgsFields innerFs 0 (fieldIndexes ++ [i])
          | .ptr (.structT innerFs) => addFieldArgsFields innerFs 0 (fieldIndexes ++ [i])
          | _ => []
        else [])
    else []) ++ addFieldArgsFields rest (i + 1) fieldIndexes

/-- The `(field, index path)` arguments `parseStruct` hands to `AddField` on a
whole type. -/
def addFieldArgs (structType : GoType) (fieldIndexes : List Nat) :
    List (GoField × List Nat) :=
  match structType with
  | .structT fs => addFieldArgsFields fs 0 fieldIndexes
  | _ => []

/-- Refinement of the field loop: it is exactly a left fold of `AddField` over
its invocation trace `addFieldArgsFields`. -/
theorem parseStructFields_eq_fold (fs : GoFields) (i : Nat) (fieldIndexes : List Nat)
    (structInfo : CachedStructInfo) (priorityTagArray : List String) :
    parseStructFields fs i fieldIndexes structInfo priorityTagArray =
      (addFieldArgsFields fs i fieldIndexes).foldl
        (fun c p => CachedStructInfo.AddField c p.1 p.2 priorityTagArray) structInfo := by
  cases fs with
  | nil => rfl
  | cons f rest =>
    cases f with
    | mk n tags anon ty =>
      cases ty with
      | prim s =>
        simp only [parseStructFields, addFieldArgsFields, ite_self]
        rw [List.foldl_append]
        by_cases hp : goIsLetterUpperFirst n
        · simp only [hp, eq_self_iff_true, if_true, List.foldl_cons, List.foldl_nil]
          exact parseStructFields_eq_fold rest (i + 1) fieldIndexes _ priorityTagArray
        · simp only [hp, if_false, List.foldl_nil]
          exact parseStructFields_eq_fold rest (i + 1) fieldIndexes _ priorityTagArray
      | structT innerFs =>
        simp only [parseStructFields, addFieldArgsFields]
        rw [List.foldl_append]
        by_cases hp : goIsLetterUpperFirst n
        · simp only [hp, eq_self_iff_true, if_true, List.foldl_cons]
          cases anon with
          | false =>
            simp only [Bool.false_eq_true, if_false, List.foldl_nil]
            exact parseStructFields_eq_fold rest (i + 1) fieldIndexes _ priorityTagArray
          | true =>
            simp only [eq_self_iff_true, if_true]
            rw [parseStructFields_eq_fold innerFs 0 (fieldIndexes ++ [i]) _ priorityTagArray]
            exact parseStructFields_eq_fold rest (i + 1) fieldIndexes _ priorityTagArray
        · simp only [hp, if_false, List.foldl_nil]
          exact parseStructFields_eq_fold rest (i + 1) fieldIndexes _ priorityTagArray
      | ptr inner =>
        cases inner with
        | prim s =>
          simp only [parseStructFields, addFieldArgsFields, ite_self]
          rw [List.foldl_append]
          by_cases hp : goIsLetterUpperFirst n
          · simp only [hp, eq_self_iff_true, if_true, List.foldl_cons, List.foldl_nil]
            exact parseStructFields_eq_fold rest (i + 1) fieldIndexes _ priorityTagArray
          · simp only [hp, if_false, List.foldl_nil]
            exact parseStructFields_eq_fold rest (i + 1) fieldIndexes _ priorityTagArray
        | ptr inner2 =>
          simp only [parseStructFields, addFieldArgsFields, ite_self]
          rw [List.foldl_append]
          by_cases hp : goIsLetterUpperFirst n
          · simp only [hp, eq_self_iff_true, if_true, List.foldl_cons, List.foldl_nil]
            exact parseStructFields_eq_fold rest (i + 1) fieldIndexes _ priorityTagArray
          · simp only [hp, if_false, List.foldl_nil]
            exact parseStructFields_eq_fold rest (i + 1) fieldIndexes _ priorityTagArray
        | structT innerFs =>
          simp only [parseStructFields, addFieldArgsFields]
          rw [List.foldl_append]
          by_cases hp : goIsLetterUpperFirst n
          · simp only [hp, eq_self_iff_true, if_true, List.foldl_cons]
            cases anon with
            | false =>
              simp only [Bool.false_eq_true, if_false, List.foldl_nil]
              exact parseStructFields_eq_fold rest (i + 1) fieldIndexes _ priorityTagArray
            | true =>
              simp only [eq_self_iff_true, if_true]
              rw [parseStructFields_eq_fold innerFs 0 (fieldIndexes ++ [i]) _
                priorityTagArray]
              exact parseStructFields_eq_fold rest (i + 1) fieldIndexes _ priorityTagArray
          · simp only [hp, if_false, List.foldl_nil]
            exact parseStructFields_eq_fold rest (i + 1) fieldIndexes _ priorityTagArray
termination_by sizeOf fs
decreasing_by
  all_goals simp_wf
  all_goals omega

/-- Refinement of `parseStruct`: it is exactly a left fold of `AddField` over
its invocation trace `addFieldArgs`. -/
theorem parseStruct_eq_fold (structType : GoType) (fieldIndexes : List Nat)
    (structInfo : CachedStructInfo) (priorityTagArray : List String) :
    parseStruct structType fieldIndexes structInfo priorityTagArray =
      (addFieldArgs structType fieldIndexes).foldl
        (fun c p => CachedStructInfo.AddField c p.1 p.2 priorityTagArray) structInfo := by
  cases structType with
  | prim s => simp [parseStruct, addFieldArgs]
  | ptr t => simp [parseStruct, addFieldArgs]
  | structT fs =>
    simp only [parseStruct, addFieldArgs]
    exact parseStructFields_eq_fold fs 0 fieldIndexes structInfo priorityTagArray

/-! ### Claim C8 -/

/-- The match-key invariant of one descriptor base: the key list is
non-empty, ends in the declared field name, and has at most one earlier
(tag-derived) entry. -/
def descrOK (b : FieldDescrBase) : Prop :=
  b.priorityTagAndFieldName ≠ [] ∧
  b.priorityTagAndFieldName.getLast? = some b.fieldName ∧
  b.priorityTagAndFieldName.length ≤ 2

/-- A freshly generated key list satisfies the match-key invariant. -/
theorem genPriorityTag_ok (field : GoField) (priorityTags : List String) :
    genPriorityTagAndFieldName field priorityTags ≠ [] ∧
    (genPriorityTagAndFieldName field priorityTags).getLast? = some field.name ∧
    (genPriorityTagAndFieldName field priorityTags).length ≤ 2 := by
  rw [genPriorityTag_eq]
  cases firstTagKey field priorityTags <;> simp [List.getLast?]

/-- `AddField` preserves the match-key invariant of every descriptor base. -/
theorem addField_preserves_descrOK (csi : CachedStructInfo) (field : GoField)
    (fieldIndexes : List Nat) (priorityTags : List String)
    (h : ∀ b ∈ csi.bases, descrOK b) :
    ∀ b ∈ (csi.AddField field fieldIndexes priorityTags).bases, descrOK b := by
  intro b hb
  unfold CachedStructInfo.AddField at hb
  cases hl : lookupKey csi.keyMap field.name with
  | some idfl =>
    rw [hl] at hb
    simp only at hb
    unfold updateBaseAt at hb
    cases hg : csi.bases.get? idfl.1 with
    | none => rw [hg] at hb; exact h b hb
    | some old =>
      rw [hg] at hb
      rcases List.mem_or_eq_of_mem_set hb with hmem | heq
      · exact h b hmem
      · have hold : descrOK old := h old (csi.bases.get?_mem hg)
        subst heq
        exact hold
  | none =>
    rw [hl] at hb
    simp only [List.mem_append, List.mem_singleton] at hb
    rcases hb with hmem | heq
    · exact h b hmem
    · subst heq
      exact genPriorityTag_ok field priorityTags


/-- A fold of `AddField` preserves the match-key invariant. -/
theorem foldl_addField_preserves_descrOK (priorityTags : List String) :
    ∀ (args : List (GoField × List Nat)) (c : CachedStructInfo),
      (∀ b ∈ c.bases, descrOK b) →
      ∀ b ∈ (args.foldl
        (fun c p => CachedStructInfo.AddField c p.1 p.2 priorityTags) c).bases, descrOK b := by
  intro args
  induction args with
  | nil => intro c hc; simpa using hc
  | cons p rest ih =>
    intro c hc
    simp only [List.foldl_cons]
    exact ih _ (addField_preserves_descrOK c p.1 p.2 priorityTags hc)

/-- Claim C8 (confirmed): every descriptor's match-key list is non-empty,
always ends in the declared field name, and has at most one earlier entry —
the one derived from the highest-priority present (non-empty) tag; the same
holds for every descriptor base of any metadata table built by
`buildStructInfo`. -/
theorem gconv_c8_matchkeys :
    (∀ (field : GoField) (priorityTags : List String),
      genPriorityTagAndFieldName field priorityTags ≠ [] ∧
      (genPriorityTagAndFieldName field priorityTags).getLast? = some field.name ∧
      (genPriorityTagAndFieldName field priorityTags).length ≤ 2 ∧
      (∀ t rest, genPriorityTagAndFieldName field priorityTags = t :: rest → rest ≠ [] →
        firstTagKey field priorityTags = some t)) ∧
    (∀ (structType : GoType) (priorityTag : String) (b : FieldDescrBase),
      b ∈ (buildStructInfo structType priorityTag).bases →
      b.priorityTagAndFieldName ≠ [] ∧
      b.priorityTagAndFieldName.getLast? = some b.fieldName ∧
      b.priorityTagAndFieldName.length ≤ 2) := by
  constructor
  · intro field priorityTags
    refine ⟨(genPriorityTag_ok field priorityTags).1,
      (genPriorityTag_ok field priorityTags).2.1,
      (genPriorityTag_ok field priorityTags).2.2, ?_⟩
    intro t rest hgen hne
    have hc := genPriorityTag_eq field priorityTags
    cases hk : firstTagKey field priorityTags with
    | none =>
      rw [hk] at hc
      rw [hc] at hgen
      have hrest : rest = [] := by
        injection hgen with h1 h2
        exact h2.symm
      exact absurd hrest hne
    | some t' =>
      rw [hk] at hc
      rw [hc] at hgen
      injection hgen with h1 h2
      rw [h1]
  · intro structType priorityTag b hb
    have hfold := parseStruct_eq_fold structType [] emptyStructInfo
      (mkPriorityTagArray priorityTag)
    unfold buildStructInfo at hb
    rw [hfold] at hb
    exact foldl_addField_preserves_descrOK (mkPriorityTagArray priorityTag)
      (addFieldArgs structType []) emptyStructInfo
      (by intro b' hb'; simp [emptyStructInfo] at hb') b hb

/-- Witness for claim C8: the theorem applied to the tagged field `F` with
priority list `["a"]`, and to the descriptor base of the anonymous member
`Name` in the built metadata of the example user type. -/
theorem gconv_c8_matchkeys_witness :
    firstTagKey exPlainTagField ["a"] = some "x" ∧
    (FieldDescrBase.mk [0] ["Name"] "Name" "Name" []).priorityTagAndFieldName ≠ [] :=
  ⟨(gconv_c8_matchkeys.1 exPlainTagField ["a"]).2.2.2 "x" ["F"] (by decide) (by decide),
   (gconv_c8_matchkeys.2 exUserType "" (FieldDescrBase.mk [0] ["Name"] "Name" "Name" [])
     (by decide)).1⟩


/-! ### Claim C1 -/

/-- Claim C1 is false as stated: after the struct type with field `F` tagged
`a:"x" b:"y"` has been cached by a first request with priority tag `"a"`, a
second request with priority tag `"b"` is a cache hit keyed by type identity
alone and returns the `"a"`-built metadata, which differs from the fresh
build for `"b"`. -/
theorem gconv_c1_counterexample :
    (getCachedStructInfo (getCachedStructInfo [] exTaggedType "a").2 exTaggedType "b").1 ≠
      some (buildStructInfo exTaggedType "b") := by decide

/-- Claim C1, amended: on a cache miss the returned metadata is exactly the
fresh `parseStruct` build for the requested (type, priority tag) pair and is
stored under the type alone; on a cache hit the metadata stored by the first
build is returned unchanged, whatever priority tag list the current request
carries — so equality with a fresh build for the requested tag list holds
only when the tag lists produce the same table. -/
theorem gconv_c1_amended (cache : StructCache) (structType : GoType)
    (priorityTag : String) (hs : isStructType structType = true) :
    (cacheLookup cache structType = none →
      getCachedStructInfo cache structType priorityTag =
        (some (buildStructInfo structType priorityTag),
         (structType, buildStructInfo structType priorityTag) :: cache)) ∧
    (∀ info, cacheLookup cache structType = some info →
      getCachedStructInfo cache structType priorityTag = (some info, cache)) := by
  constructor
  · intro hmiss
    simp [getCachedStructInfo, hs, hmiss]
  · intro info hhit
    simp [getCachedStructInfo, hs, hhit]

/-- Witness for the amended claim C1: a first request on an empty cache
returns and stores the fresh build. -/
theorem gconv_c1_amended_witness :
    getCachedStructInfo [] exTaggedType "a" =
      (some (buildStructInfo exTaggedType "a"),
       [(exTaggedType, buildStructInfo exTaggedType "a")]) :=
  (gconv_c1_amended [] exTaggedType "a" (by decide)).1 (by decide)

/-! ### Claim C2 -/

/-- Claim C2 is false as stated: in the metadata built for the example user
type, the untagged anonymous member `Name` has its own descriptor (id 0),
registered under the key `"Name"` with the `isField` flag and appended to
`fieldConvertInfos` — i.e. it is a separate bindable field — while its inner
fields are indeed also merged with extended index paths. -/
theorem gconv_c2_counterexample :
    exAnonField.anonymous = true ∧ exAnonField.tags = [] ∧
    lookupKey (buildStructInfo exUserType "").keyMap "Name" = some (0, true) ∧
    (buildStructInfo exUserType "").fieldConvertInfos = [0, 1, 2] ∧
    ((buildStructInfo exUserType "").getBase 0).map
      (fun b => b.priorityTagAndFieldName) = some ["Name"] ∧
    ((buildStructInfo exUserType "").getBase 1).map
      (fun b => b.fieldIndexes) = some [0, 0] := by
  refine ⟨by decide, by decide, by decide, by decide, by decide, by decide⟩

/-- The public fields of a declared field list together with their declaration
indices, counting from `i`. -/
def publicFieldsWithIdx : GoFields → Nat → List (GoField × Nat)
  | .nil, _ => []
  | .cons f rest, i =>
    (if goIsLetterUpperFirst f.name then [(f, i)] else []) ++
      publicFieldsWithIdx rest (i + 1)

/-- Every public field — anonymous or not, tagged or not — appears in the
`AddField` invocation trace with the extended index path. -/
theorem publicField_in_args (parent : List Nat) :
    ∀ (fs : GoFields) (i0 : Nat) (f : GoField) (i : Nat),
      (f, i) ∈ publicFieldsWithIdx fs i0 →
      (f, parent ++ [i]) ∈ addFieldArgsFields fs i0 parent
  | .nil, i0, f, i => by
    intro h
    simp [publicFieldsWithIdx] at h
  | .cons (.mk n tags anon ty) rest, i0, f, i => by
    intro h
    simp only [publicFieldsWithIdx, GoField.name, List.mem_append] at h
    rcases h with hhead | htail
    · by_cases hp : goIsLetterUpperFirst n
      · rw [if_pos hp] at hhead
        simp only [List.mem_singleton] at hhead
        have hf : f = GoField.mk n tags anon ty := by
          have := congrArg Prod.fst hhead
          simpa using this
        have hi : i = i0 := by
          have := congrArg Prod.snd hhead
          simpa using this
        subst hf
        subst hi
        cases ty with
        | prim s =>
          simp [addFieldArgsFields, hp]
        | structT innerFs =>
          simp [addFieldArgsFields, hp]
        | ptr inner =>
          cases inner <;> simp [addFieldArgsFields, hp]
      · rw [if_neg hp] at hhead
        simp at hhead
    · have hmem := publicField_in_args parent rest (i0 + 1) f i htail
      cases ty with
      | prim s =>
        simp only [addFieldArgsFields, List.mem_append]
        exact Or.inr hmem
      | structT innerFs =>
        simp only [addFieldArgsFields, List.mem_append]
        exact Or.inr hmem
      | ptr inner =>
        cases inner <;>
          (simp only [addFieldArgsFields, List.mem_append]; exact Or.inr hmem)

/-- The inner fields of a public anonymous struct member are merged into the
same trace, with index paths extending the member's. -/
theorem anonInner_in_args (parent : List Nat) :
    ∀ (fs : GoFields) (i0 : Nat) (f : GoField) (i : Nat),
      (f, i) ∈ publicFieldsWithIdx fs i0 →
      f.anonymous = true →
      ∀ p ∈ addFieldArgs (unwrapPtr f.type) (parent ++ [i]),
        p ∈ addFieldArgsFields fs i0 parent
  | .nil, i0, f, i => by
    intro h
    simp [publicFieldsWithIdx] at h
  | .cons (.mk n tags anon ty) rest, i0, f, i => by
    intro h hanon p hp
    simp only [publicFieldsWithIdx, GoField.name, List.mem_append] at h
    rcases h with hhead | htail
    · by_cases hpub : goIsLetterUpperFirst n
      · rw [if_pos hpub] at hhead
        simp only [List.mem_singleton] at hhead
        have hf : f = GoField.mk n tags anon ty := by
          have := congrArg Prod.fst hhead
          simpa using this
        have hi : i = i0 := by
          have := congrArg Prod.snd hhead
          simpa using this
        subst hf
        subst hi
        have hanon' : anon = true := hanon
        subst hanon'
        cases ty with
        | prim s => exact absurd hp (List.not_mem_nil p)
        | structT innerFs =>
          simp only [GoField.type, unwrapPtr, addFieldArgs] at hp
          simp only [addFieldArgsFields, hpub, List.mem_append]
          left
          simp only [eq_self_iff_true, if_true, List.mem_cons]
          right
          exact hp
        | ptr inner =>
          cases inner with
          | prim s => exact absurd hp (List.not_mem_nil p)
          | ptr inner2 => exact absurd hp (List.not_mem_nil p)
          | structT innerFs =>
            simp only [GoField.type, unwrapPtr, addFieldArgs] at hp
            simp only [addFieldArgsFields, hpub, List.mem_append]
            left
            simp only [eq_self_iff_true, if_true, List.mem_cons]
            right
            exact hp
      · rw [if_neg hpub] at hhead
        simp at hhead
    · have hmem := anonInner_in_args parent rest (i0 + 1) f i htail hanon p hp
      cases ty with
      | prim s =>
        simp only [addFieldArgsFields, List.mem_append]
        exact Or.inr hmem
      | structT innerFs =>
        simp only [addFieldArgsFields, List.mem_append]
        exact Or.inr hmem
      | ptr inner =>
        cases inner <;>
          (simp only [addFieldArgsFields, List.mem_append]; exact Or.inr hmem)

/-- Claim C2, amended: in the cache path's table construction (`parseStruct`,
which by `parseStruct_eq_fold` is the fold of `AddField` over `addFieldArgs`),
every public field of the destination struct — including an anonymous member
that carries no tag — is registered via `AddField` as a bindable descriptor
with the extended index path; the anonymous member's promoted inner fields
are additionally merged into the same table with index paths extending the
member's. Only the non-cached `doStruct` path restricts anonymous members to
tagged ones. -/
theorem gconv_c2_amended (fs : GoFields) (parent : List Nat) (f : GoField) (i : Nat)
    (hmem : (f, i) ∈ publicFieldsWithIdx fs 0) :
    (f, parent ++ [i]) ∈ addFieldArgs (.structT fs) parent ∧
    (f.anonymous = true →
      ∀ p ∈ addFieldArgs (unwrapPtr f.type) (parent ++ [i]),
        p ∈ addFieldArgs (.structT fs) parent) := by
  constructor
  · exact publicField_in_args parent fs 0 f i hmem
  · intro hanon p hp
    exact anonInner_in_args parent fs 0 f i hmem hanon p hp

/-- Witness for the amended claim C2 at the example user type: the untagged
anonymous member `Name` is registered, and its inner fields are merged. -/
theorem gconv_c2_amended_witness :
    (exAnonField, ([] : List Nat) ++ [0]) ∈
      addFieldArgs (.structT (.cons exAnonField .nil)) [] ∧
    ∀ p ∈ addFieldArgs (unwrapPtr exAnonField.type) (([] : List Nat) ++ [0]),
      p ∈ addFieldArgs (.structT (.cons exAnonField .nil)) [] := by
  have h := gconv_c2_amended (.cons exAnonField .nil) [] exAnonField 0
    (by simp [publicFieldsWithIdx, exAnonField, goIsLetterUpperFirst, GoField.name])
  exact ⟨h.1, fun p hp => h.2 rfl p hp⟩

/-! ### Claim C4 -/

/-- A remainder-of-call that panics after partially writing the allocated
struct value, as a fallback binding panic inside a deferred per-field
recover does (`bindVarToReflectValue`, `gconv_struct.go` line 512). -/
def exPanickingRest : GoAny → PanicOr (Option GErr) × GoAny :=
  fun _ => (.panicked "reflect: cannot convert int to struct", GoAny.str "partial")

/-- Claim C4 is false as stated: when the remainder of the call panics after
auto-vivification, the reset defer (registered at `gconv_struct.go` line 135,
so run before the call-level recover of lines 66-75) observes the named `err`
still nil and does not reset; the recover then assigns a panic-derived error,
so the overall call returns an error while the caller observes the allocated,
partially populated pointer — not nil. -/
theorem gconv_c4_counterexample :
    (doStructPtrElem (none : Option GoAny) GoAny.nil exPanickingRest).1 ≠ none ∧
    (doStructPtrElem (none : Option GoAny) GoAny.nil exPanickingRest).2 =
      some (GoAny.str "partial") := by
  refine ⟨by decide, by decide⟩

/-- Claim C4, amended: after auto-vivification of a nil pointer to struct,
the allocated pointer chain is reset to nil exactly when the overall error is
returned through the normal return path (the remainder of the call returns a
non-nil error); on success the allocated value is kept; but when the error is
produced by the call-level recover from a panic, the reset defer has already
run with the error not yet assigned, and the caller observes the allocated,
possibly partially populated pointer. -/
theorem gconv_c4_amended {α : Type} (zeroVal : α)
    (rest : α → PanicOr (Option GErr) × α) :
    (∀ err : GErr, (rest zeroVal).1 = .ok (some err) →
      doStructPtrElem (none : Option α) zeroVal rest = (some err, none)) ∧
    ((rest zeroVal).1 = .ok none →
      doStructPtrElem (none : Option α) zeroVal rest =
        (none, some (rest zeroVal).2)) ∧
    (∀ p, (rest zeroVal).1 = .panicked p →
      doStructPtrElem (none : Option α) zeroVal rest =
        (some { code := .internalPanic, msg := p, fieldName := none },
         some (rest zeroVal).2)) := by
  refine ⟨?_, ?_, ?_⟩
  · intro err h
    simp only [doStructPtrElem]
    rw [h]
  · intro h
    simp only [doStructPtrElem]
    rw [h]
  · intro p h
    simp only [doStructPtrElem]
    rw [h]

/-- A failing nested conversion error used by the claim C4 witness. -/
def exNestedErr : GErr :=
  { code := GCode.other, msg := "nested conversion failed", fieldName := none }

/-- A remainder-of-call that fails through the normal error-return path, used
by the claim C4 witness. -/
def exFailingRest : GoAny → PanicOr (Option GErr) × GoAny :=
  fun s => (.ok (some exNestedErr), s)

/-- Witness for the amended claim C4: an inner conversion failing through the
normal return path on an auto-allocated pointer leaves the pointer nil. -/
theorem gconv_c4_amended_witness :
    doStructPtrElem (none : Option GoAny) GoAny.nil exFailingRest =
      (some exNestedErr, none) :=
  (gconv_c4_amended GoAny.nil exFailingRest).1 exNestedErr rfl

/-! ### Claim C9 -/

/-- Claim C9 (confirmed): a panic during the direct reflective assignment is
recovered at the per-field boundary; if the fallback binding succeeds the
field is bound without error, if it returns an error the call yields a
structured error carrying the offending field name, and even a panic during
the fallback is converted into an internal-panic error by the `doStruct`
recover, so no assignment panic ever escapes `Convert`. -/
theorem gconv_c9_panic_recovery (attrName : String) (direct : PanicOr Unit)
    (fallback : PanicOr (Option GErr)) :
    (∀ p e, direct = .panicked p → fallback = .ok (some e) →
      convertFieldBind attrName direct fallback = some (wrapFieldErr e attrName) ∧
      (wrapFieldErr e attrName).fieldName = some attrName) ∧
    (∀ p, direct = .panicked p → fallback = .ok none →
      convertFieldBind attrName direct fallback = none) ∧
    (∀ p q, direct = .panicked p → fallback = .panicked q →
      convertFieldBind attrName direct fallback =
        some { code := GCode.internalPanic, msg := q, fieldName := none }) := by
  refine ⟨?_, ?_, ?_⟩
  · intro p e hd hf
    subst hd
    subst hf
    exact ⟨rfl, rfl⟩
  · intro p hd hf
    subst hd
    subst hf
    rfl
  · intro p q hd hf
    subst hd
    subst hf
    rfl

/-- Witness for claim C9: a concrete assignment panic with a failing fallback
yields the wrapped error carrying the field name. -/
theorem gconv_c9_panic_recovery_witness :
    convertFieldBind "Age" (.panicked "reflect: Set on mismatched kind")
      (.ok (some { code := GCode.other, msg := "cannot convert", fieldName := none })) =
      some (wrapFieldErr
        { code := GCode.other, msg := "cannot convert", fieldName := none } "Age") ∧
    (wrapFieldErr
      { code := GCode.other, msg := "cannot convert", fieldName := none } "Age").fieldName =
      some "Age" :=
  (gconv_c9_panic_recovery "Age" (.panicked "reflect: Set on mismatched kind")
    (.ok (some { code := GCode.other, msg := "cannot convert", fieldName := none }))).1
    "reflect: Set on mismatched kind"
    { code := GCode.other, msg := "cannot convert", fieldName := none } rfl rfl

/-! ### Claim C10 -/

/-- Claim C10 (confirmed): a nil source returns success and leaves the
destination untouched — nil source is not an error case — while a nil
destination pointer with a non-nil source returns an invalid-parameter
error. -/
theorem gconv_c10_nil_checks :
    (∀ (pointer : Option GoAny)
       (rest : GoAny → GoAny → Option GErr × Option GoAny),
      doStructEntry none pointer rest = (none, pointer)) ∧
    (∀ (p : GoAny) (rest : GoAny → GoAny → Option GErr × Option GoAny),
      (doStructEntry (some p) none rest).1 =
        some { code := GCode.invalidParameter, msg := "object pointer cannot be nil",
               fieldName := none }) := by
  constructor
  · intro pointer rest
    rfl
  · intro p rest
    rfl

/-! ### Claim C7 -/

/-- One-step unfolding of the fuzzy probe on a non-empty map. -/
theorem fuzzyGo_cons (fn : String) (used : List String) (pk : String) (pv : GoAny)
    (rest : List (String × GoAny)) :
    fuzzyGo fn used ((pk, pv) :: rest) =
      if used.contains pk then fuzzyGo fn used rest
      else if equalFold fn (removeSymbols pk) then (pk, pv)
      else fuzzyGo fn used rest := rfl

/-- A successful fuzzy probe returns an entry of the map whose key is
unconsumed and symbol-stripped case-insensitively equal to the stripped field
name. -/
theorem fuzzyGo_spec (fn : String) (used : List String) :
    ∀ (l : List (String × GoAny)),
      (fuzzyGo fn used l).2 ≠ GoAny.nil →
      ((fuzzyGo fn used l).1, (fuzzyGo fn used l).2) ∈ l ∧
      used.contains (fuzzyGo fn used l).1 = false ∧
      equalFold fn (removeSymbols (fuzzyGo fn used l).1) = true := by
  intro l
  induction l with
  | nil => intro h; simp [fuzzyGo] at h
  | cons p rest ih =>
    intro h
    obtain ⟨pk, pv⟩ := p
    rw [fuzzyGo_cons] at h ⊢
    by_cases hu : used.contains pk = true
    · rw [if_pos hu] at h ⊢
      obtain ⟨hmem, hc, he⟩ := ih h
      exact ⟨List.mem_cons_of_mem _ hmem, hc, he⟩
    · rw [if_neg hu] at h ⊢
      by_cases hf : equalFold fn (removeSymbols pk) = true
      · rw [if_pos hf] at h ⊢
        exact ⟨List.mem_cons_self _ _, Bool.not_eq_true _ ▸ (by simpa using hu), hf⟩
      · rw [if_neg hf] at h ⊢
        obtain ⟨hmem, hc, he⟩ := ih h
        exact ⟨List.mem_cons_of_mem _ hmem, hc, he⟩

/-- If some unconsumed entry of the map matches, the fuzzy probe succeeds
(provided the map holds no nil values). -/
theorem fuzzyGo_exists (fn : String) (used : List String) :
    ∀ (l : List (String × GoAny)),
      (∀ p ∈ l, p.2 ≠ GoAny.nil) →
      (∃ p ∈ l, used.contains p.1 = false ∧ equalFold fn (removeSymbols p.1) = true) →
      (fuzzyGo fn used l).2 ≠ GoAny.nil := by
  intro l
  induction l with
  | nil => intro hvals hex; simp at hex
  | cons p rest ih =>
    intro hvals hex
    obtain ⟨pk, pv⟩ := p
    rw [fuzzyGo_cons]
    by_cases hu : used.contains pk = true
    · rw [if_pos hu]
      apply ih (fun q hq => hvals q (List.mem_cons_of_mem _ hq))
      obtain ⟨q, hq, hqc, hqe⟩ := hex
      rcases List.mem_cons.mp hq with hqhead | hqtail
      · exfalso
        rw [hqhead] at hqc
        simp only at hqc
        rw [hu] at hqc
        exact Bool.true_eq_false.mp hqc
      · exact ⟨q, hqtail, hqc, hqe⟩
    · rw [if_neg hu]
      by_cases hf : equalFold fn (removeSymbols pk) = true
      · rw [if_pos hf]
        exact hvals (pk, pv) (List.mem_cons_self _ _)
      · rw [if_neg hf]
        apply ih (fun q hq => hvals q (List.mem_cons_of_mem _ hq))
        obtain ⟨q, hq, hqc, hqe⟩ := hex
        rcases List.mem_cons.mp hq with hqhead | hqtail
        · exfalso
          rw [hqhead] at hqe
          simp only at hqe
          exact hf hqe
        · exact ⟨q, hqtail, hqc, hqe⟩

/-- On a nil-free map, a fuzzy probe whose value is nil is exactly the
not-found default pair. -/
theorem fuzzyGo_nilpair (fn : String) (used : List String) :
    ∀ (l : List (String × GoAny)),
      (∀ p ∈ l, p.2 ≠ GoAny.nil) →
      (fuzzyGo fn used l).2 = GoAny.nil →
      fuzzyGo fn used l = ("", GoAny.nil) := by
  intro l
  induction l with
  | nil => intro hvals hx; rfl
  | cons p rest ih =>
    intro hvals hx
    obtain ⟨pk, pv⟩ := p
    rw [fuzzyGo_cons] at hx ⊢
    by_cases hu : used.contains pk = true
    · rw [if_pos hu] at hx ⊢
      exact ih (fun q hq => hvals q (List.mem_cons_of_mem _ hq)) hx
    · rw [if_neg hu] at hx ⊢
      by_cases hf : equalFold fn (removeSymbols pk) = true
      · rw [if_pos hf] at hx
        exact absurd hx (hvals (pk, pv) (List.mem_cons_self _ _))
      · rw [if_neg hf] at hx ⊢
        exact ih (fun q hq => hvals q (List.mem_cons_of_mem _ hq)) hx

/-- Claim C7 (confirmed): on a parameter map holding no nil values, the fuzzy
match succeeds exactly when some not-yet-consumed source key equals the field
name case-insensitively after stripping separator symbols from both; and any
returned (key, value) is such an entry of the map. -/
theorem gconv_c7_fuzzy_match (fieldName : String) (paramsMap : List (String × GoAny))
    (used : List String) (hvals : ∀ p ∈ paramsMap, p.2 ≠ GoAny.nil) :
    (fuzzyMatchingFieldName fieldName paramsMap used ≠ ("", GoAny.nil) ↔
      ∃ p ∈ paramsMap, used.contains p.1 = false ∧
        equalFold (removeSymbols fieldName) (removeSymbols p.1) = true) ∧
    (∀ k v, fuzzyMatchingFieldName fieldName paramsMap used = (k, v) →
      v ≠ GoAny.nil →
      (k, v) ∈ paramsMap ∧ used.contains k = false ∧
      equalFold (removeSymbols fieldName) (removeSymbols k) = true) := by
  constructor
  · constructor
    · intro hne
      by_cases h2 : (fuzzyGo (removeSymbols fieldName) used paramsMap).2 = GoAny.nil
      · exact absurd (fuzzyGo_nilpair (removeSymbols fieldName) used paramsMap hvals h2) hne
      · obtain ⟨hmem, hc, he⟩ := fuzzyGo_spec (removeSymbols fieldName) used paramsMap h2
        exact ⟨_, hmem, hc, he⟩
    · intro hex
      have hne := fuzzyGo_exists (removeSymbols fieldName) used paramsMap hvals hex
      intro heq
      unfold fuzzyMatchingFieldName at heq
      rw [heq] at hne
      exact hne rfl
  · intro k v heq hv
    have h2 : (fuzzyGo (removeSymbols fieldName) used paramsMap).2 ≠ GoAny.nil := by
      unfold fuzzyMatchingFieldName at heq
      rw [heq]
      exact hv
    obtain ⟨hmem, hc, he⟩ := fuzzyGo_spec (removeSymbols fieldName) used paramsMap h2
    unfold fuzzyMatchingFieldName at heq
    rw [heq] at hmem hc he
    exact ⟨hmem, hc, he⟩

/-- Witness for claim C7: the field `UserName` with no tag or exact match
fuzzy-matches the source key `"user_name"` and receives its value. -/
theorem gconv_c7_fuzzy_match_witness :
    fuzzyMatchingFieldName "UserName" [("user_name", GoAny.str "B")] [] ≠
      ("", GoAny.nil) ∧
    doStructBind [("UserName", "UserName", 0)] [("user_name", GoAny.str "B")] [] =
      [{ fieldName := "UserName", key := "user_name", value := GoAny.str "B",
         kind := MatchKind.fuzzy }] :=
  ⟨(gconv_c7_fuzzy_match "UserName" [("user_name", GoAny.str "B")] []
      (by decide)).1.mpr
    ⟨("user_name", GoAny.str "B"), by decide, by decide, by decide⟩,
   by decide⟩

/-! ### Claim C3 -/

/-- One-step unfolding of the main binding loop on a non-empty field list. -/
theorem bindLoop_cons (paramsMap : List (String × GoAny)) (f : FieldInfo)
    (rest : List FieldInfo) (used : List String) :
    bindLoop paramsMap (f :: rest) used =
      if f.val ≠ .nil then
        { fieldName := f.name, key := f.tag, value := f.val, kind := .exact } ::
          bindLoop paramsMap rest (f.tag :: used)
      else
        if (fuzzyMatchingFieldName f.name paramsMap used).2 ≠ .nil then
          { fieldName := f.name,
            key := (fuzzyMatchingFieldName f.name paramsMap used).1,
            value := (fuzzyMatchingFieldName f.name paramsMap used).2,
            kind := .fuzzy } ::
            bindLoop paramsMap rest
              ((fuzzyMatchingFieldName f.name paramsMap used).1 :: used)
        else bindLoop paramsMap rest used := rfl

/-- Unfolding of Go-map key lookup over a cons cell of the consumed-key set. -/
theorem contains_cons_eq (x a : String) (l : List String) :
    (a :: l).contains x = ((x == a) || l.contains x) := rfl

/-- Within one call, in whatever order the fields are visited: a key marked
consumed when an earlier-visited field was bound — by its exact/tag match or
by a fuzzy match — is never returned by a later field's fuzzy match. -/
theorem bindLoop_consumed_fresh (paramsMap : List (String × GoAny)) :
    ∀ (fields : List FieldInfo) (used : List String) (j : Nat) (b : BindEntry),
      (bindLoop paramsMap fields used).get? j = some b → b.kind = .fuzzy →
      used.contains b.key = false ∧
      ∀ (i' : Nat) (a : BindEntry), i' < j →
        (bindLoop paramsMap fields used).get? i' = some a → a.key ≠ b.key := by
  intro fields
  induction fields with
  | nil =>
    intro used j b hj hk
    simp [bindLoop] at hj
  | cons f rest ih =>
    intro used j b hj hk
    rw [bindLoop_cons] at hj
    by_cases hv : f.val ≠ GoAny.nil
    · rw [if_pos hv] at hj
      cases j with
      | zero =>
        simp only [List.get?] at hj
        injection hj with hb
        rw [← hb] at hk
        simp at hk
      | succ j' =>
        simp only [List.get?] at hj
        obtain ⟨hc, hfresh⟩ := ih (f.tag :: used) j' b hj hk
        rw [contains_cons_eq] at hc
        rcases Bool.or_eq_false_iff.mp hc with ⟨hne, hcu⟩
        refine ⟨hcu, ?_⟩
        intro i' a hi ha
        rw [bindLoop_cons, if_pos hv] at ha
        cases i' with
        | zero =>
          simp only [List.get?] at ha
          injection ha with hae
          rw [← hae]
          intro heq
          have heq' : f.tag = b.key := heq
          rw [heq'] at hne
          simp at hne
        | succ i'' =>
          simp only [List.get?] at ha
          exact hfresh i'' a (Nat.lt_of_succ_lt_succ hi) ha
    · rw [if_neg hv] at hj
      by_cases hrv : (fuzzyMatchingFieldName f.name paramsMap used).2 ≠ GoAny.nil
      · rw [if_pos hrv] at hj
        cases j with
        | zero =>
          simp only [List.get?] at hj
          injection hj with hb
          obtain ⟨hmem, hc, he⟩ := fuzzyGo_spec (removeSymbols f.name) used paramsMap hrv
          rw [← hb]
          exact ⟨hc, fun i' a hi ha => absurd hi (Nat.not_lt_zero i')⟩
        | succ j' =>
          simp only [List.get?] at hj
          obtain ⟨hc, hfresh⟩ :=
            ih ((fuzzyMatchingFieldName f.name paramsMap used).1 :: used) j' b hj hk
          rw [contains_cons_eq] at hc
          rcases Bool.or_eq_false_iff.mp hc with ⟨hne, hcu⟩
          refine ⟨hcu, ?_⟩
          intro i' a hi ha
          rw [bindLoop_cons, if_neg hv, if_pos hrv] at ha
          cases i' with
          | zero =>
            simp only [List.get?] at ha
            injection ha with hae
            rw [← hae]
            intro heq
            have heq' : (fuzzyMatchingFieldName f.name paramsMap used).1 = b.key := heq
            rw [heq'] at hne
            simp at hne
          | succ i'' =>
            simp only [List.get?] at ha
            exact hfresh i'' a (Nat.lt_of_succ_lt_succ hi) ha
      · rw [if_neg hrv] at hj
        obtain ⟨hc, hfresh⟩ := ih used j b hj hk
        refine ⟨hc, ?_⟩
        intro i' a hi ha
        rw [bindLoop_cons, if_neg hv, if_neg hrv] at ha
        exact hfresh i' a hi ha

/-- Field map of the claim C3 counterexample, in the iteration order that
visits the fuzzy-only field `UserName` before the tag-matched field `Data`. -/
def exC3FieldsBad : List (String × String × Nat) :=
  [("UserName", "UserName", 0), ("Data", "user_name", 1)]

/-- The same field map in the opposite iteration order. -/
def exC3FieldsGood : List (String × String × Nat) :=
  [("Data", "user_name", 1), ("UserName", "UserName", 0)]

/-- Parameter map of the claim C3 counterexample. -/
def exC3Params : List (String × GoAny) := [("user_name", GoAny.str "B")]

/-- Claim C3 is false as stated: with fields `UserName` (fuzzy-only) and
`Data` (tag `user_name`) and source `{"user_name": "B"}`, the iteration order
that visits `UserName` first lets the single key `"user_name"` satisfy both
`UserName`'s fuzzy match and `Data`'s tag match in the same call, while the
opposite order forbids it — the exclusivity claimed for every iteration order
is order-dependent, because `usedParamsKey` is only populated when the
already-matched field happens to be visited. -/
theorem gconv_c3_counterexample :
    doStructBind exC3FieldsBad exC3Params [] =
      [{ fieldName := "UserName", key := "user_name", value := GoAny.str "B",
         kind := MatchKind.fuzzy },
       { fieldName := "Data", key := "user_name", value := GoAny.str "B",
         kind := MatchKind.exact }] ∧
    hasSharedFuzzyKey (doStructBind exC3FieldsBad exC3Params []) = true ∧
    hasSharedFuzzyKey (doStructBind exC3FieldsGood exC3Params []) = false := by
  refine ⟨by decide, by decide, by decide⟩

/-- Claim C3, amended: the consumption set is call-local (it starts empty on
every `doStructBind` call and is never cached), and a key consumed by an
earlier-visited field — through its exact/tag match or its fuzzy match —
cannot satisfy any later-visited field's fuzzy match; but the protection is
only in visit order: a key that pre-resolved a not-yet-visited field's
exact/tag match can still satisfy an earlier-visited field's fuzzy match, so
exclusivity does not hold regardless of the (unordered) iteration order. -/
theorem gconv_c3_amended (fields : List (String × String × Nat))
    (paramsMap : List (String × GoAny)) (overrides : List (String × String))
    (i j : Nat) (a b : BindEntry) (hij : i < j)
    (ha : (doStructBind fields paramsMap overrides).get? i = some a)
    (hb : (doStructBind fields paramsMap overrides).get? j = some b)
    (hk : b.kind = .fuzzy) : a.key ≠ b.key :=
  (bindLoop_consumed_fresh paramsMap
    (applyOverrides (initFieldVals fields paramsMap) paramsMap overrides)
    [] j b hb hk).2 i a hij ha

/-- Parameter map used by the claim C3 witness: two differently formatted
keys that both normalize to `username`. -/
def exC3Params2 : List (String × GoAny) :=
  [("user_name", GoAny.str "B"), ("USERNAME", GoAny.str "C")]

/-- Witness for the amended claim C3: with `Data` visited first and consuming
`"user_name"`, the later fuzzy match of `UserName` must pick a different key
(here `"USERNAME"`). -/
theorem gconv_c3_amended_witness : ("user_name" : String) ≠ "USERNAME" :=
  gconv_c3_amended exC3FieldsGood exC3Params2 [] 0 1
    { fieldName := "Data", key := "user_name", value := GoAny.str "B",
      kind := MatchKind.exact }
    { fieldName := "UserName", key := "USERNAME", value := GoAny.str "C",
      kind := MatchKind.fuzzy }
    (by decide) (by decide) (by decide) (by decide)

/-! ### Claim C6 -/

/-- Setting the element at an occupied index makes reads at that index return
the new element. -/
theorem get?_set_same {α : Type} : ∀ (l : List α) (i : Nat) (a b : α),
    l.get? i = some b → (l.set i a).get? i = some a
  | [], i, a, b => by intro h; simp at h
  | x :: xs, 0, a, b => by intro h; rfl
  | x :: xs, i + 1, a, b => by
    intro h
    simpa using get?_set_same xs i a b (by simpa using h)

/-- Reading the last slot of a one-element extension. -/
theorem get?_append_singleton {α : Type} : ∀ (l : List α) (a : α),
    (l ++ [a]).get? l.length = some a
  | [], _ => rfl
  | _ :: xs, a => get?_append_singleton xs a

/-- In-place update of an occupied base slot: the slot now holds the updated
base and the store size is unchanged. -/
theorem updateBaseAt_spec (l : List FieldDescrBase) (i : Nat)
    (g : FieldDescrBase → FieldDescrBase) (b : FieldDescrBase)
    (h : l.get? i = some b) :
    (updateBaseAt l i g).get? i = some (g b) ∧ (updateBaseAt l i g).length = l.length := by
  unfold updateBaseAt
  rw [h]
  exact ⟨get?_set_same l i (g b) b h, by simp⟩

/-- `AddField` on an already-registered declared name only appends the new
index path to the shared base. -/
theorem addField_dup (csi : CachedStructInfo) (g : GoField) (idx : List Nat)
    (tags : List String) (id : Nat) (fl : Bool)
    (hdup : lookupKey csi.keyMap g.name = some (id, fl)) :
    csi.AddField g idx tags =
      { csi with bases := updateBaseAt csi.bases id (fun b =>
          { b with otherSameNameFieldIndex :=
              b.otherSameNameFieldIndex ++ [idx] }) } := by
  unfold CachedStructInfo.AddField
  rw [hdup]

/-- `AddField` on a fresh declared name creates exactly one shared base and
registers the declared name as its `isField` entry. -/
theorem addField_fresh (csi : CachedStructInfo) (f : GoField) (fi : List Nat)
    (tags : List String) (hfresh : lookupKey csi.keyMap f.name = none) :
    (csi.AddField f fi tags).bases = csi.bases ++
      [{ fieldIndexes := fi,
         priorityTagAndFieldName := genPriorityTagAndFieldName f tags,
         fieldName := f.name,
         removeSymbolsFieldName := removeSymbols f.name,
         otherSameNameFieldIndex := [] }] ∧
    lookupKey (csi.AddField f fi tags).keyMap f.name = some (csi.bases.length, true) := by
  unfold CachedStructInfo.AddField
  rw [hfresh]
  constructor
  · rfl
  · have hgen := genPriorityTag_eq f tags
    cases hk : firstTagKey f tags with
    | none =>
      rw [hk] at hgen
      rw [hgen]
      simp [lookupKey, List.foldl_cons, List.foldl_nil, List.find?]
    | some t =>
      rw [hk] at hgen
      rw [hgen]
      simp [lookupKey, List.foldl_cons, List.foldl_nil, List.find?]

/-- Folding `AddField` over any number of same-named later fields never
creates a base and only extends the shared base's duplicate index-path
list, in order. -/
theorem addFields_dups (tags : List String) (n : String) (id : Nat) :
    ∀ (dups : List (GoField × List Nat)) (c : CachedStructInfo) (fl : Bool)
      (b : FieldDescrBase),
      (∀ p ∈ dups, p.1.name = n) →
      lookupKey c.keyMap n = some (id, fl) →
      c.getBase id = some b →
      ((dups.foldl (fun c p => c.AddField p.1 p.2 tags) c).bases.length =
        c.bases.length ∧
       (dups.foldl (fun c p => c.AddField p.1 p.2 tags) c).keyMap = c.keyMap ∧
       (dups.foldl (fun c p => c.AddField p.1 p.2 tags) c).getBase id =
         some { b with otherSameNameFieldIndex :=
                  b.otherSameNameFieldIndex ++ dups.map (fun p => p.2) }) := by
  intro dups
  induction dups with
  | nil =>
    intro c fl b hnames hlk hgb
    refine ⟨rfl, rfl, ?_⟩
    simpa using hgb
  | cons d dupsRest ih =>
    intro c fl b hnames hlk hgb
    simp only [List.foldl_cons]
    have hdn : d.1.name = n := hnames d (List.mem_cons_self _ _)
    have hlk' : lookupKey c.keyMap d.1.name = some (id, fl) := by rw [hdn]; exact hlk
    rw [addField_dup c d.1 d.2 tags id fl hlk']
    have hspec := updateBaseAt_spec c.bases id
      (fun b => { b with
        otherSameNameFieldIndex := b.otherSameNameFieldIndex ++ [d.2] }) b hgb
    obtain ⟨hlen, hkm, hgb2⟩ := ih
      { c with bases := updateBaseAt c.bases id (fun b =>
          { b with otherSameNameFieldIndex :=
              b.otherSameNameFieldIndex ++ [d.2] }) }
      fl
      { b with otherSameNameFieldIndex := b.otherSameNameFieldIndex ++ [d.2] }
      (fun p hp => hnames p (List.mem_cons_of_mem _ hp))
      hlk
      hspec.1
    refine ⟨hlen.trans hspec.2, hkm, ?_⟩
    rw [hgb2]
    simp [List.append_assoc]

/-- A write is visible at its path. -/
theorem writePath_same (s : PathStore) (p : List Nat) (v : GoAny) :
    writePath s p v p = some v := by
  simp [writePath]

/-- A write preserves other slots that already hold the value. -/
theorem writePath_keep (s : PathStore) (p q : List Nat) (v : GoAny)
    (h : s q = some v) : writePath s p v q = some v := by
  unfold writePath
  by_cases hq : q = p <;> simp [hq, h]

/-- Folding writes of one value over a path list makes every written path —
and every path already holding the value — read that value. -/
theorem foldl_writePath (v : GoAny) :
    ∀ (l : List (List Nat)) (s : PathStore) (q : List Nat),
      (s q = some v ∨ q ∈ l) →
      (l.foldl (fun st p => writePath st p v) s) q = some v := by
  intro l
  induction l with
  | nil =>
    intro s q h
    rcases h with hs | hm
    · exact hs
    · simp at hm
  | cons p rest ih =>
    intro s q h
    simp only [List.foldl_cons]
    apply ih
    rcases h with hs | hm
    · exact Or.inl (writePath_keep s p q v hs)
    · rcases List.mem_cons.mp hm with he | ht
      · rw [he]
        exact Or.inl (writePath_same s p v)
      · exact Or.inr ht

/-- The assignment step writes the converted value to the primary index path
and to every duplicate index path. -/
theorem assignAllPaths_spec (b : FieldDescrBase) (v : GoAny) (s : PathStore) :
    assignAllPaths b v s b.fieldIndexes = some v ∧
    ∀ p ∈ b.otherSameNameFieldIndex, assignAllPaths b v s p = some v := by
  unfold assignAllPaths
  constructor
  · exact foldl_writePath v _ _ _ (Or.inl (writePath_same s b.fieldIndexes v))
  · intro p hp
    exact foldl_writePath v _ _ _ (Or.inr hp)

/-- Claim C6 (confirmed): when a fresh declared name is registered and any
number of later same-named fields (from other embedding branches) are added,
exactly one descriptor base is created — for the first encountered field —
whose index path is the first field's; every subsequent occurrence's index
path is appended, in order, to that descriptor's duplicate index-path list;
and on assignment the primary index path and every duplicate index path
receive the same converted value. -/
theorem gconv_c6_duplicate_names (csi : CachedStructInfo) (f : GoField)
    (i1 : List Nat) (dups : List (GoField × List Nat)) (tags : List String)
    (v : GoAny) (s : PathStore)
    (hfresh : lookupKey csi.keyMap f.name = none)
    (hdup : ∀ p ∈ dups, p.1.name = f.name) :
    ((dups.foldl (fun c p => c.AddField p.1 p.2 tags)
        (csi.AddField f i1 tags)).bases.length = csi.bases.length + 1) ∧
    ∃ b : FieldDescrBase,
      (dups.foldl (fun c p => c.AddField p.1 p.2 tags)
        (csi.AddField f i1 tags)).getBase csi.bases.length = some b ∧
      lookupKey (dups.foldl (fun c p => c.AddField p.1 p.2 tags)
        (csi.AddField f i1 tags)).keyMap f.name = some (csi.bases.length, true) ∧
      b.fieldIndexes = i1 ∧
      b.otherSameNameFieldIndex = dups.map (fun p => p.2) ∧
      assignAllPaths b v s b.fieldIndexes = some v ∧
      (∀ p ∈ b.otherSameNameFieldIndex, assignAllPaths b v s p = some v) := by
  obtain ⟨hbases, hlk⟩ := addField_fresh csi f i1 tags hfresh
  have hgb1 : (csi.AddField f i1 tags).getBase csi.bases.length =
      some { fieldIndexes := i1,
             priorityTagAndFieldName := genPriorityTagAndFieldName f tags,
             fieldName := f.name,
             removeSymbolsFieldName := removeSymbols f.name,
             otherSameNameFieldIndex := [] } := by
    unfold CachedStructInfo.getBase
    rw [hbases]
    exact get?_append_singleton csi.bases _
  obtain ⟨hlen, hkm, hgb⟩ := addFields_dups tags f.name csi.bases.length dups
    (csi.AddField f i1 tags) true _ hdup hlk hgb1
  constructor
  · rw [hlen, hbases]
    simp
  · refine ⟨_, hgb, ?_, rfl, ?_, ?_, ?_⟩
    · rw [hkm]
      exact hlk
    · simp
    · exact (assignAllPaths_spec _ v s).1
    · exact (assignAllPaths_spec _ v s).2

/-- The duplicated field of the claim C6 witness: `ID`, declared in two
embedding branches. -/
def exIDField : GoField := .mk "ID" [] false (.prim "int")

/-- Witness for claim C6: registering `ID` at index path `[0, 0]` and a
same-named `ID` at `[1, 0]` yields one descriptor whose duplicate list is
`[[1, 0]]`, and assignment writes the value to both paths. -/
theorem gconv_c6_duplicate_names_witness :
    (([((exIDField : GoField), ([1, 0] : List Nat))].foldl
        (fun c p => c.AddField p.1 p.2 ["json"])
        (emptyStructInfo.AddField exIDField [0, 0] ["json"])).bases.length =
      emptyStructInfo.bases.length + 1) ∧
    ∃ b : FieldDescrBase,
      ([((exIDField : GoField), ([1, 0] : List Nat))].foldl
        (fun c p => c.AddField p.1 p.2 ["json"])
        (emptyStructInfo.AddField exIDField [0, 0] ["json"])).getBase
          emptyStructInfo.bases.length = some b ∧
      lookupKey ([((exIDField : GoField), ([1, 0] : List Nat))].foldl
        (fun c p => c.AddField p.1 p.2 ["json"])
        (emptyStructInfo.AddField exIDField [0, 0] ["json"])).keyMap
          exIDField.name = some (emptyStructInfo.bases.length, true) ∧
      b.fieldIndexes = [0, 0] ∧
      b.otherSameNameFieldIndex =
        [((exIDField : GoField), ([1, 0] : List Nat))].map (fun p => p.2) ∧
      assignAllPaths b (GoAny.int 7) (fun _ => none) b.fieldIndexes =
        some (GoAny.int 7) ∧
      (∀ p ∈ b.otherSameNameFieldIndex,
        assignAllPaths b (GoAny.int 7) (fun _ => none) p = some (GoAny.int 7)) :=
  gconv_c6_duplicate_names emptyStructInfo exIDField [0, 0]
    [(exIDField, [1, 0])] ["json"] (GoAny.int 7) (fun _ => none)
    rfl (by decide)

end GConv
